import Mathlib

/-!
Verification of the context-and-retrieval subsystem of the Case_Study_Task
conversational backend: chunking, lexical relevance scoring, top-k retrieval,
token accounting, sliding-window and token-budget context management.

The Python source is shallowly embedded: pure functions become Lean
functions, Python `list` slicing gets explicit semantics (`pySlice`),
the external tiktoken encoding is an abstract token-count function
`tok : String → Nat`, and the chunking `while` loop becomes a fuel-indexed
recursion (the source loop need not terminate for bad parameters, so the
embedding returns `none` exactly when the loop runs out of fuel).
-/

namespace CaseStudy

/-! ## Data model -/

/-- In-memory chat message shape `{role, content}` passed to the model
(src/app schemas guarantee both keys are present as strings). -/
structure Message where
  role : String
  content : String
deriving DecidableEq, Repr

/-- Chunk record produced by `TextProcessor.chunk_text` and persisted inside
a document record.  `start_word`/`end_word` are Python ints, hence `Int`. -/
structure Chunk where
  chunk_id : String
  text : String
  start_word : Int
  end_word : Int
  word_count : Nat
deriving DecidableEq, Repr

/-- Scored chunk built by `RAGService.retrieve_relevant_chunks` (transient). -/
structure ScoredChunk where
  text : String
  score : ℚ
  chunk_id : String
  document : String
deriving DecidableEq, Repr

/-- Stored document record as consumed by retrieval: its filename and the
chunk list it owns (other fields are not read by the retrieval path). -/
structure DocRecord where
  filename : String
  chunks : List Chunk
deriving DecidableEq, Repr

/-- Conversation mode (src/app/schemas): open chat or grounded RAG. -/
inductive ConversationMode where
  | open_chat
  | grounded_rag
deriving DecidableEq, Repr

/-- Outcome of the document-store fetch inside
`retrieve_relevant_chunks`: either the document list, or a raised error
(malformed ObjectId, store failure) that the `except` clause catches. -/
inductive FetchResult where
  | ok (docs : List DocRecord)
  | err (e : String)

/-! ## Python semantics helpers -/

/-- Normalize a Python slice bound: a negative index counts from the end
(clamped below at 0), a non-negative one is clamped above at the length. -/
def pyBound (n : Nat) (i : Int) : Nat :=
  if i < 0 then (i + n).toNat else min i.toNat n

/-- Python `l[a:b]` for arbitrary integer bounds. -/
def pySlice {α : Type} (l : List α) (a b : Int) : List α :=
  (l.drop (pyBound l.length a)).take (pyBound l.length b - pyBound l.length a)

/-- Python `l[a:]`. -/
def pySliceFrom {α : Type} (l : List α) (a : Int) : List α :=
  pySlice l a l.length

/-- Python `str.split()` core: cut a character list at whitespace runs,
dropping empty pieces.  `acc` holds the current word reversed. -/
def splitWsAux : List Char → List Char → List String
  | [], acc => if acc = [] then [] else [String.mk acc.reverse]
  | c :: cs, acc =>
      if c.isWhitespace then
        (if acc = [] then splitWsAux cs [] else String.mk acc.reverse :: splitWsAux cs [])
      else splitWsAux cs (c :: acc)

/-- Python `s.split()` (no separator argument). -/
def pySplitWs (s : String) : List String := splitWsAux s.toList []

/-! ## Token accountant (src/app/utils/token_counter.py)

`tok` stands for the fixed tiktoken encoding's `count_tokens`; every
statement below is proved for an arbitrary such function. -/

/-- `TokenCounter.count_message_tokens`: 4 per message plus tokens of the
role and content strings, accumulated left to right, plus 2 once. -/
def count_message_tokens (tok : String → Nat) (messages : List Message) : Nat :=
  (messages.foldl (fun total m => total + 4 + tok m.role + tok m.content) 0) + 2

/-- Per-message body cost (the summand added for one message before the
final conversation overhead). -/
def messageBody (tok : String → Nat) (m : Message) : Nat :=
  4 + tok m.role + tok m.content

/-- The inner loop of `TokenCounter.truncate_messages`: walk the non-system
messages most recent first, prepend each to the result while the running
total stays within `remaining`, stop at the first that does not fit. -/
def truncLoop (tok : String → Nat) (remaining : Int) :
    List Message → Int → List Message → List Message
  | [], _, result => result
  | m :: rest, current, result =>
      if current + (count_message_tokens tok [m] : Int) ≤ remaining then
        truncLoop tok remaining rest
          (current + (count_message_tokens tok [m] : Int)) (m :: result)
      else result

/-- `TokenCounter.truncate_messages` with `keep_system=True` (the only call
site): retain system messages, then fill the remaining token budget from the
most recent non-system messages backwards. -/
def truncate_messages (tok : String → Nat) (messages : List Message)
    (max_tokens : Int) : List Message :=
  if messages = [] then messages
  else
    let system_messages := messages.filter (fun m => m.role == "system")
    let other_messages := messages.filter (fun m => !(m.role == "system"))
    let system_tokens : Int := count_message_tokens tok system_messages
    let remaining : Int := max_tokens - system_tokens
    if remaining ≤ 0 then system_messages.take 1
    else system_messages ++ truncLoop tok remaining other_messages.reverse 0 []

/-! ## Context manager (src/app/services/llm_service.py, `_manage_context`) -/

/-- Phase 1 of `_manage_context` (lines 68-78): if the history exceeds
`max_history`, keep the system messages and slice the non-system messages
with Python `other[-(max_history - len(system)):]`. -/
def slidingWindow (max_history : Nat) (messages : List Message) : List Message :=
  if messages.length > max_history then
    let system_messages := messages.filter (fun m => m.role == "system")
    let other_messages := messages.filter (fun m => !(m.role == "system"))
    system_messages
      ++ pySliceFrom other_messages
          (-((max_history : Int) - (system_messages.length : Int)))
  else messages

/-- `_manage_context`: sliding window, then token-budget truncation if the
windowed history exceeds `max_tokens`. -/
def manage_context (tok : String → Nat) (max_history max_tokens : Nat)
    (messages : List Message) : List Message :=
  let windowed := slidingWindow max_history messages
  if count_message_tokens tok windowed > max_tokens then
    truncate_messages tok windowed (max_tokens : Int)
  else windowed

/-! ## Relevance scorer (src/app/utils/text_processor.py,
`calculate_relevance_score`)

Python builds `set(re.sub(r'[^\w\s]', '', s.lower()).split())` for both
strings and returns `len(i)/len(u)` on the two sets.  The embedding keeps
first-occurrence-order duplicate-free lists (`List.dedup`) as the runtime
representation of the Python sets; only emptiness and sizes of the sets,
their intersection and their union are ever consumed, and those agree with
the `Finset` view (`normalizeWords`) by the bridge lemmas below. -/

/-- Characters kept by `re.sub(r'[^\w\s]', '', ·)`: word characters
(letters, digits, underscore; ASCII model of the regex class) and
whitespace. -/
def wordChar (c : Char) : Bool := c.isAlphanum || c == '_' || c.isWhitespace

/-- `s.lower()` then `re.sub(r'[^\w\s]', '', ·)` then `.split()`, with the
resulting set represented as its duplicate-free first-occurrence list. -/
def wordList (s : String) : List String :=
  (pySplitWs (String.mk ((s.toList.map Char.toLower).filter wordChar))).dedup

/-- The normalized word set of a string, as a `Finset`. -/
def normalizeWords (s : String) : Finset String := (wordList s).toFinset

/-- `TextProcessor.calculate_relevance_score`: Jaccard similarity of the two
normalized word sets, with empty-set inputs scored 0.0. -/
def calculate_relevance_score (query chunkText : String) : ℚ :=
  let query_words := wordList query
  let chunk_words := wordList chunkText
  if query_words = [] ∨ chunk_words = [] then 0
  else
    let intersection := query_words.filter (fun w => w ∈ chunk_words)
    let union := (query_words ++ chunk_words).dedup
    if union ≠ [] then (intersection.length : ℚ) / (union.length : ℚ) else 0

/-! ## Chunker (src/app/utils/text_processor.py, `chunk_text`)

The source `while` loop does not terminate when `overlap >= chunk_size`
(the next start does not advance), so the embedding is fuel-indexed:
`none` means the loop was still running when the fuel ran out. -/

/-- One `while start < len(words)` loop of `chunk_text`, fuel-indexed.
`start` is a Python int (it can go negative for bad parameters), `idx` is
the running chunk index. -/
def chunkLoop (words : List String) (chunk_size overlap : Nat) :
    Nat → Int → Nat → Option (List Chunk)
  | 0, _, _ => none
  | fuel + 1, start, idx =>
      if start < (words.length : Int) then
        let e : Int := min (start + (chunk_size : Int)) (words.length : Int)
        let chunk_words := pySlice words start e
        let c : Chunk :=
          { chunk_id := "chunk_" ++ toString idx
            text := String.intercalate " " chunk_words
            start_word := start
            end_word := e
            word_count := chunk_words.length }
        let nextStart : Int := if e < (words.length : Int) then e - (overlap : Int) else e
        (chunkLoop words chunk_size overlap fuel nextStart (idx + 1)).map (c :: ·)
      else some []

/-- `TextProcessor.chunk_text`.  A word count of at most `chunk_size` yields
the single whole-text chunk; otherwise the loop runs with fuel
`len(words) + 1`, which suffices whenever `overlap < chunk_size`. -/
def chunk_text (text : String) (chunk_size overlap : Nat) : Option (List Chunk) :=
  let words := pySplitWs text
  if words.length ≤ chunk_size then
    some [{ chunk_id := "chunk_0", text := text, start_word := 0,
            end_word := (words.length : Int), word_count := words.length }]
  else chunkLoop words chunk_size overlap (words.length + 1) 0 0

/-! ## Retriever (src/app/services/rag_service.py,
`retrieve_relevant_chunks`) -/

/-- The scored-chunk pool: every chunk of every document of the
conversation, in document order then chunk order (encounter order). -/
def scoredPool (docs : List DocRecord) (query : String) : List ScoredChunk :=
  docs.flatMap fun d => d.chunks.map fun c =>
    { text := c.text
      score := calculate_relevance_score query c.text
      chunk_id := c.chunk_id
      document := d.filename }

/-- Total order justifying Python's stable `sort(key=score, reverse=True)`
on the position-tagged pool: higher score first, ties by original
position. -/
def sortRel : (Nat × ScoredChunk) → (Nat × ScoredChunk) → Prop := fun a b =>
  b.2.score < a.2.score ∨ (a.2.score = b.2.score ∧ a.1 ≤ b.1)

instance : DecidableRel sortRel := fun a b =>
  inferInstanceAs
    (Decidable (b.2.score < a.2.score ∨ (a.2.score = b.2.score ∧ a.1 ≤ b.1)))

/-- Python `scored_chunks.sort(key=lambda x: x["score"], reverse=True)`:
`list.sort` is stable, and a stable descending sort is exactly the total
sort by (score descending, encounter position ascending) of the
position-tagged list. -/
def pyStableSortDesc (l : List ScoredChunk) : List (Nat × ScoredChunk) :=
  List.insertionSort sortRel l.enum

/-- The pure core of `retrieve_relevant_chunks` once the store returned
`documents`: empty document list short-circuits to `[]`; otherwise score
the pool, sort descending by score (stable), take the first `top_k`, and
return only the chunk texts. -/
def retrieve_core (docs : List DocRecord) (query : String) (top_k : Nat) :
    List String :=
  if docs = [] then []
  else
    let sorted := (pyStableSortDesc (scoredPool docs query)).map Prod.snd
    ((sorted.take top_k).map (fun sc => sc.text))

/-- `RAGService.retrieve_relevant_chunks`: the whole body runs inside
`try/except`; any store or ObjectId failure is caught and becomes `[]`. -/
def retrieve_relevant_chunks (fetch : FetchResult) (query : String)
    (top_k : Nat) : List String :=
  match fetch with
  | .ok docs => retrieve_core docs query top_k
  | .err _ => []

/-! ## RAG message assembly (src/app/services/llm_service.py,
`generate_with_rag_context`) and dispatch
(src/app/services/conversation_service.py, `_generate_and_store_response`) -/

/-- The fixed grounding instruction system message. -/
def ragSystemMessage : Message :=
  { role := "system"
    content := "You are a helpful assistant. Answer the user\x27s question based on the provided document excerpts. If the answer cannot be found in the provided context, say so clearly. Always cite which document excerpt you\x27re using when answering." }

/-- `"\n\n".join(f"[Document Excerpt {i+1}]\n{chunk}" ...)`. -/
def ragContextJoin (retrieved_chunks : List String) : String :=
  String.intercalate "\n\n"
    (retrieved_chunks.enum.map fun p =>
      "[Document Excerpt " ++ toString (p.1 + 1) ++ "]\n" ++ p.2)

/-- The synthetic context system message. -/
def contextMessage (retrieved_chunks : List String) : Message :=
  { role := "system"
    content := "Relevant document context:\n\n" ++ ragContextJoin retrieved_chunks }

/-- The message list `generate_with_rag_context` assembles before calling
`generate_response` (which then applies `_manage_context`). -/
def rag_messages (user_message : String) (history : List Message)
    (retrieved_chunks : List String) : List Message :=
  [ragSystemMessage, contextMessage retrieved_chunks]
    ++ history ++ [{ role := "user", content := user_message }]

/-- `_generate_and_store_response`, reduced to what it assembles and
reports: in grounded mode with a non-empty retrieval it builds the RAG
message list and the response carries `chunks_used = len(chunks)`; with an
empty retrieval (or in open chat) it sends plain history plus the user
message, and the stored metadata reads `response.get("chunks_used", 0) = 0`.
Returns (assembled message list, observed chunks-used count). -/
def generateDispatch (mode : ConversationMode) (chunks : List String)
    (history : List Message) (user_message : String) : List Message × Nat :=
  match mode with
  | .grounded_rag =>
      if chunks ≠ [] then (rag_messages user_message history chunks, chunks.length)
      else (history ++ [{ role := "user", content := user_message }], 0)
  | .open_chat => (history ++ [{ role := "user", content := user_message }], 0)

/-! ## Token accountant lemmas -/

lemma count_message_tokens_foldl_shift (tok : String → Nat) (messages : List Message) :
    ∀ a : Nat, messages.foldl (fun total m => total + 4 + tok m.role + tok m.content) a
      = a + (messages.map (messageBody tok)).sum := by
  induction messages with
  | nil => intro a; simp
  | cons m rest ih =>
      intro a
      simp only [List.foldl_cons, List.map_cons, List.sum_cons, ih, messageBody]
      ring

/-- Closed form of the token accountant. -/
lemma count_message_tokens_eq (tok : String → Nat) (messages : List Message) :
    count_message_tokens tok messages = (messages.map (messageBody tok)).sum + 2 := by
  unfold count_message_tokens
  rw [count_message_tokens_foldl_shift]
  ring

lemma count_message_tokens_nil (tok : String → Nat) :
    count_message_tokens tok [] = 2 := rfl

lemma count_message_tokens_append (tok : String → Nat) (l₁ l₂ : List Message) :
    count_message_tokens tok (l₁ ++ l₂)
      = count_message_tokens tok l₁ + count_message_tokens tok l₂ - 2 := by
  simp only [count_message_tokens_eq, List.map_append, List.sum_append]
  omega

lemma count_message_tokens_singleton (tok : String → Nat) (m : Message) :
    count_message_tokens tok [m] = messageBody tok m + 2 := by
  simp [count_message_tokens_eq]

/-! ## Context manager lemmas -/

/-- Whole-message token counts (each carrying its own +2 overhead) sum to
the bodies plus 2 per message. -/
lemma sum_single_counts (tok : String → Nat) (l : List Message) :
    (l.map (fun m => (count_message_tokens tok [m] : Int))).sum
      = ((l.map (messageBody tok)).sum : Int) + 2 * l.length := by
  induction l with
  | nil => simp
  | cons m t ih =>
      rw [List.map_cons, List.sum_cons, ih, count_message_tokens_singleton,
        List.map_cons, List.sum_cons, List.length_cons]
      push_cast
      ring

/-- The truncation loop never accumulates more than `remaining` tokens of
whole-message counts. -/
lemma truncLoop_bound (tok : String → Nat) (remaining : Int) :
    ∀ (rest : List Message) (current : Int) (acc : List Message),
      (acc.map (fun m => (count_message_tokens tok [m] : Int))).sum ≤ current →
      current ≤ remaining →
      ((truncLoop tok remaining rest current acc).map
          (fun m => (count_message_tokens tok [m] : Int))).sum ≤ remaining := by
  intro rest
  induction rest with
  | nil =>
      intro current acc h1 h2
      simpa [truncLoop] using le_trans h1 h2
  | cons m rest ih =>
      intro current acc h1 h2
      unfold truncLoop
      by_cases hc : current + (count_message_tokens tok [m] : Int) ≤ remaining
      · rw [if_pos hc]
        apply ih
        · simp only [List.map_cons, List.sum_cons]
          linarith
        · exact hc
      · rw [if_neg hc]
        exact le_trans h1 h2

/-- When the budget left after system messages is positive, the truncated
message list fits in `max_tokens`. -/
lemma truncate_messages_le (tok : String → Nat) (messages : List Message)
    (max_tokens : Int) (hne : messages ≠ [])
    (hrem : 0 < max_tokens
      - (count_message_tokens tok (messages.filter (fun m => m.role == "system")) : Int)) :
    (count_message_tokens tok (truncate_messages tok messages max_tokens) : Int)
      ≤ max_tokens := by
  unfold truncate_messages
  rw [if_neg hne, if_neg (not_le.mpr hrem)]
  set sys := messages.filter (fun m => m.role == "system") with hsys
  set other := messages.filter (fun m => !(m.role == "system")) with hother
  set remaining : Int := max_tokens - (count_message_tokens tok sys : Int) with hremdef
  set L := truncLoop tok remaining other.reverse 0 [] with hL
  have hsum : (L.map (fun m => (count_message_tokens tok [m] : Int))).sum ≤ remaining :=
    truncLoop_bound tok remaining other.reverse 0 [] (by simp) (le_of_lt hrem)
  have hbody : ((L.map (messageBody tok)).sum : Int)
      ≤ (L.map (fun m => (count_message_tokens tok [m] : Int))).sum := by
    rw [sum_single_counts]
    have h0 : (0 : Int) ≤ 2 * L.length := by positivity
    linarith
  have hcount : (count_message_tokens tok (sys ++ L) : Int)
      = (count_message_tokens tok sys : Int) + ((L.map (messageBody tok)).sum : Int) := by
    rw [count_message_tokens_eq tok (sys ++ L), count_message_tokens_eq tok sys]
    push_cast [List.map_append, List.sum_append]
    ring
  rw [hcount]
  have := le_trans hbody hsum
  rw [hremdef] at this
  linarith

/-- When the budget left after system messages is non-positive, truncation
returns the first system message alone (or nothing if there is none). -/
lemma truncate_messages_of_nonpos (tok : String → Nat) (messages : List Message)
    (max_tokens : Int)
    (hrem : max_tokens
      - (count_message_tokens tok (messages.filter (fun m => m.role == "system")) : Int) ≤ 0) :
    truncate_messages tok messages max_tokens
      = (messages.filter (fun m => m.role == "system")).take 1 := by
  unfold truncate_messages
  by_cases hne : messages = []
  · rw [if_pos hne, hne]
    rfl
  · rw [if_neg hne, if_pos hrem]

/-- `_manage_context` unfolded. -/
lemma manage_context_eq (tok : String → Nat) (max_history max_tokens : Nat)
    (messages : List Message) :
    manage_context tok max_history max_tokens messages
      = if count_message_tokens tok (slidingWindow max_history messages) > max_tokens
        then truncate_messages tok (slidingWindow max_history messages) (max_tokens : Int)
        else slidingWindow max_history messages := rfl

/-! ## Relevance scorer lemmas -/

lemma wordList_nodup (s : String) : (wordList s).Nodup := List.nodup_dedup _

lemma wordList_eq_nil_iff (s : String) : wordList s = [] ↔ normalizeWords s = ∅ := by
  rw [normalizeWords, List.toFinset_eq_empty_iff]

/-- The runtime intersection size is the cardinality of the set
intersection. -/
lemma inter_length_eq (q c : String) :
    ((wordList q).filter (fun w => w ∈ wordList c)).length
      = (normalizeWords q ∩ normalizeWords c).card := by
  have hnd : ((wordList q).filter (fun w => w ∈ wordList c)).Nodup :=
    (wordList_nodup q).filter _
  rw [← List.toFinset_card_of_nodup hnd, List.toFinset_filter]
  rw [normalizeWords, normalizeWords, ← Finset.filter_mem_eq_inter]
  congr 1
  apply Finset.filter_congr
  intro x _
  simp [List.mem_toFinset]

/-- The runtime union size is the cardinality of the set union. -/
lemma union_length_eq (q c : String) :
    ((wordList q ++ wordList c).dedup).length
      = (normalizeWords q ∪ normalizeWords c).card := by
  have hd : (wordList q ++ wordList c).dedup.toFinset
      = (wordList q ++ wordList c).toFinset :=
    Finset.ext fun a => by simp [List.mem_toFinset, List.mem_dedup]
  rw [← List.toFinset_card_of_nodup (List.nodup_dedup _), hd, List.toFinset_append]
  rfl

/-- Closed form of the scorer on non-empty word sets. -/
lemma calculate_relevance_score_eq (q c : String)
    (hq : wordList q ≠ []) (hc : wordList c ≠ []) :
    calculate_relevance_score q c
      = ((normalizeWords q ∩ normalizeWords c).card : ℚ)
          / ((normalizeWords q ∪ normalizeWords c).card : ℚ) := by
  have hu : (wordList q ++ wordList c).dedup ≠ [] := by
    intro h
    apply hq
    have := (List.dedup_eq_nil _).mp h
    exact List.append_eq_nil.mp this |>.1
  unfold calculate_relevance_score
  rw [if_neg (by simp [hq, hc]), if_pos hu, inter_length_eq, union_length_eq]

lemma calculate_relevance_score_zero (q c : String)
    (h : wordList q = [] ∨ wordList c = []) :
    calculate_relevance_score q c = 0 := by
  unfold calculate_relevance_score
  rw [if_pos h]

lemma calculate_relevance_score_nonneg (q c : String) :
    0 ≤ calculate_relevance_score q c := by
  by_cases h : wordList q = [] ∨ wordList c = []
  · rw [calculate_relevance_score_zero q c h]
  · push_neg at h
    rw [calculate_relevance_score_eq q c h.1 h.2]
    positivity

lemma calculate_relevance_score_le_one (q c : String) :
    calculate_relevance_score q c ≤ 1 := by
  by_cases h : wordList q = [] ∨ wordList c = []
  · rw [calculate_relevance_score_zero q c h]; norm_num
  · push_neg at h
    rw [calculate_relevance_score_eq q c h.1 h.2]
    have hle : (normalizeWords q ∩ normalizeWords c).card
        ≤ (normalizeWords q ∪ normalizeWords c).card :=
      Finset.card_le_card (Finset.inter_subset_union)
    have hpos : 0 < ((normalizeWords q ∪ normalizeWords c).card : ℚ) := by
      have : normalizeWords q ≠ ∅ := fun hemp =>
        h.1 ((wordList_eq_nil_iff q).mpr hemp)
      have hne : (normalizeWords q ∪ normalizeWords c).Nonempty := by
        rw [← Finset.nonempty_iff_ne_empty] at this
        exact this.mono Finset.subset_union_left
      exact_mod_cast Finset.card_pos.mpr hne
    rw [div_le_one hpos]
    exact_mod_cast hle

/-- Symmetry of the scorer. -/
lemma calculate_relevance_score_comm (q c : String) :
    calculate_relevance_score q c = calculate_relevance_score c q := by
  by_cases h : wordList q = [] ∨ wordList c = []
  · rw [calculate_relevance_score_zero q c h,
      calculate_relevance_score_zero c q h.symm]
  · push_neg at h
    rw [calculate_relevance_score_eq q c h.1 h.2,
      calculate_relevance_score_eq c q h.2 h.1,
      Finset.inter_comm, Finset.union_comm]

/-- Self-similarity of the scorer on a non-empty word set. -/
lemma calculate_relevance_score_self (q : String) (h : wordList q ≠ []) :
    calculate_relevance_score q q = 1 := by
  rw [calculate_relevance_score_eq q q h h, Finset.inter_self, Finset.union_self]
  have : (normalizeWords q).card ≠ 0 := by
    intro hc
    exact absurd ((wordList_eq_nil_iff q).mpr (Finset.card_eq_zero.mp hc)) h
  rw [div_self (by exact_mod_cast this)]

lemma calculate_relevance_score_empty_right (q : String) :
    calculate_relevance_score q "" = 0 :=
  calculate_relevance_score_zero q "" (Or.inr rfl)

/-- The worked scenario from the spec: intersection {refund, policy},
union of 8 words, score 2/8 = 1/4. -/
lemma calculate_relevance_score_example :
    calculate_relevance_score "refund policy"
      "Our refund policy allows returns within 30 days" = 1 / 4 := by
  have h1 : wordList "refund policy" ≠ [] := by decide
  have h2 : wordList "Our refund policy allows returns within 30 days" ≠ [] := by decide
  rw [calculate_relevance_score_eq _ _ h1 h2]
  have hi : (normalizeWords "refund policy"
      ∩ normalizeWords "Our refund policy allows returns within 30 days").card = 2 := by
    rw [← inter_length_eq]; decide
  have hu : (normalizeWords "refund policy"
      ∪ normalizeWords "Our refund policy allows returns within 30 days").card = 8 := by
    rw [← union_length_eq]; decide
  rw [hi, hu]
  norm_num

/-! ## Retriever lemmas -/

instance : IsTotal (Nat × ScoredChunk) sortRel := by
  constructor
  intro a b
  rcases lt_trichotomy a.2.score b.2.score with h | h | h
  · exact Or.inr (Or.inl h)
  · rcases le_total a.1 b.1 with h2 | h2
    · exact Or.inl (Or.inr ⟨h, h2⟩)
    · exact Or.inr (Or.inr ⟨h.symm, h2⟩)
  · exact Or.inl (Or.inl h)

instance : IsTrans (Nat × ScoredChunk) sortRel := by
  constructor
  intro a b c hab hbc
  rcases hab with h1 | ⟨h1, h1i⟩ <;> rcases hbc with h2 | ⟨h2, h2i⟩
  · exact Or.inl (lt_trans h2 h1)
  · exact Or.inl (h2 ▸ h1)
  · exact Or.inl (by rw [h1]; exact h2)
  · exact Or.inr ⟨h1.trans h2, le_trans h1i h2i⟩

lemma pyStableSortDesc_perm (l : List ScoredChunk) :
    List.Perm (pyStableSortDesc l) l.enum :=
  List.perm_insertionSort _ _

/-- The sorted pool is pairwise strictly descending by score with ties
strictly by original encounter position: exactly the output of a stable
descending sort, uniquely determined by the input order. -/
lemma pyStableSortDesc_pairwise (l : List ScoredChunk) :
    (pyStableSortDesc l).Pairwise (fun a b =>
      b.2.score < a.2.score ∨ (a.2.score = b.2.score ∧ a.1 < b.1)) := by
  have hs : (pyStableSortDesc l).Pairwise sortRel :=
    List.sorted_insertionSort sortRel l.enum
  have hperm : List.Perm (pyStableSortDesc l) l.enum :=
    pyStableSortDesc_perm l
  have hnd : ((pyStableSortDesc l).map Prod.fst).Nodup := by
    have hp : List.Perm ((pyStableSortDesc l).map Prod.fst)
        (l.enum.map Prod.fst) := hperm.map _
    rw [List.enum_map_fst] at hp
    exact hp.nodup_iff.mpr (List.nodup_range _)
  have hne : (pyStableSortDesc l).Pairwise (fun a b => a.1 ≠ b.1) :=
    List.pairwise_map.mp hnd
  apply (hs.and hne).imp
  rintro a b ⟨hab, hne'⟩
  rcases hab with h | ⟨h, hle⟩
  · exact Or.inl h
  · exact Or.inr ⟨h, lt_of_le_of_ne hle hne'⟩

/-- Every scored chunk in the pool carries the score recomputed from its
own text. -/
lemma scoredPool_score (docs : List DocRecord) (query : String) :
    ∀ sc ∈ scoredPool docs query,
      sc.score = calculate_relevance_score query sc.text := by
  intro sc hsc
  unfold scoredPool at hsc
  rw [List.mem_flatMap] at hsc
  obtain ⟨d, _, hmem⟩ := hsc
  rw [List.mem_map] at hmem
  obtain ⟨c, _, hc⟩ := hmem
  rw [← hc]

/-- Every scored chunk in the pool is built from some chunk of some
document. -/
lemma scoredPool_mem (docs : List DocRecord) (query : String) :
    ∀ sc ∈ scoredPool docs query,
      ∃ d ∈ docs, ∃ c ∈ d.chunks, c.text = sc.text := by
  intro sc hsc
  unfold scoredPool at hsc
  rw [List.mem_flatMap] at hsc
  obtain ⟨d, hd, hmem⟩ := hsc
  rw [List.mem_map] at hmem
  obtain ⟨c, hc, hceq⟩ := hmem
  exact ⟨d, hd, c, hc, by rw [← hceq]⟩

/-- Every element of the sorted pool comes from the pool. -/
lemma pyStableSortDesc_snd_mem (l : List ScoredChunk) :
    ∀ p ∈ pyStableSortDesc l, p.2 ∈ l := by
  intro p hp
  have hmem := (pyStableSortDesc_perm l).mem_iff.mp hp
  rw [List.mem_enum_iff_getElem?] at hmem
  exact List.getElem?_mem hmem

/-- Elements surviving `take top_k` of the sorted pool are pool members. -/
lemma retrieve_take_mem (docs : List DocRecord) (query : String) (top_k : Nat) :
    ∀ sc ∈ (((pyStableSortDesc (scoredPool docs query)).map Prod.snd).take top_k),
      sc ∈ scoredPool docs query := by
  intro sc hsc
  have hsc' := List.take_subset top_k _ hsc
  obtain ⟨p, hp, hpe⟩ := List.mem_map.mp hsc'
  exact hpe ▸ pyStableSortDesc_snd_mem _ p hp

/-! ## Chunker lemmas -/

lemma pyBound_coe (n i : Nat) (h : i ≤ n) : pyBound n (i : Int) = i := by
  unfold pyBound
  rw [if_neg (by omega)]
  simp [h]

lemma pySlice_coe_length {α : Type} (l : List α) (a b : Nat)
    (hab : a ≤ b) (hb : b ≤ l.length) :
    (pySlice l (a : Int) (b : Int)).length = b - a := by
  unfold pySlice
  rw [pyBound_coe _ _ (le_trans hab hb), pyBound_coe _ _ hb]
  simp only [List.length_take, List.length_drop]
  omega

/-- Full specification of the chunking loop for valid parameters
`overlap < chunk_size`: given enough fuel it terminates, the first chunk
starts at `start`, every chunk satisfies `end - start = word_count` with
`end = min (start + chunk_size, total)`, consecutive chunks advance
strictly with the next start exactly `end - overlap`, and every word from
`start` on is covered by some chunk. -/
lemma chunkLoop_spec (words : List String) (cs ov : Nat) (hov : ov < cs) :
    ∀ (fuel start idx : Nat),
      start < words.length → words.length < start + fuel →
      ∃ hd tl,
        chunkLoop words cs ov fuel (start : Int) idx = some (hd :: tl)
        ∧ hd.start_word = (start : Int)
        ∧ (∀ c ∈ hd :: tl,
            c.end_word - c.start_word = (c.word_count : Int)
            ∧ 0 ≤ c.start_word
            ∧ c.start_word < c.end_word
            ∧ c.end_word = min (c.start_word + (cs : Int)) (words.length : Int))
        ∧ (hd :: tl).Chain' (fun a b =>
            a.start_word < b.start_word
            ∧ b.start_word = a.end_word - (ov : Int)
            ∧ a.end_word ≤ b.end_word)
        ∧ (∀ w : Nat, start ≤ w → w < words.length →
            ∃ c ∈ hd :: tl, c.start_word ≤ (w : Int) ∧ (w : Int) < c.end_word) := by
  intro fuel
  induction fuel with
  | zero => intro start idx h1 h2; omega
  | succ f ih =>
      intro start idx h1 h2
      have hpos : (start : Int) < (words.length : Int) := by exact_mod_cast h1
      set L : Nat := words.length with hL
      set eN : Nat := min (start + cs) L with heN
      have heI : min ((start : Int) + (cs : Int)) (L : Int) = (eN : Int) := by
        rw [heN]; push_cast; rfl
      have hse : start < eN := by omega
      have heL : eN ≤ L := by omega
      have hlen : (pySlice words (start : Int) (eN : Int)).length = eN - start :=
        pySlice_coe_length words start eN (le_of_lt hse) heL
      rw [chunkLoop]
      rw [if_pos hpos]
      simp only [heI]
      by_cases hcase : eN < L
      · have hnsI : ((eN : Int) - (ov : Int)) = ((eN - ov : Nat) : Int) := by
          have : ov < eN := by omega
          omega
        have hlt : (eN : Int) < (L : Int) := by exact_mod_cast hcase
        rw [if_pos hlt]
        obtain ⟨hd, tl, heq, hhd, hinv, hchain, hcov⟩ :=
          ih (eN - ov) (idx + 1) (by omega) (by omega)
        rw [hnsI, heq]
        refine ⟨_, hd :: tl, rfl, rfl, ?_, ?_, ?_⟩
        · intro c hc
          rcases List.mem_cons.mp hc with rfl | hc
          · refine ⟨?_, by dsimp only; positivity, ?_, ?_⟩
            · dsimp only
              simp only [hlen]
              omega
            · dsimp only
              exact_mod_cast hse
            · dsimp only
              rw [heI]
          · exact hinv c hc
        · rw [List.chain'_cons]
          refine ⟨⟨?_, ?_, ?_⟩, hchain⟩
          · rw [hhd]
            dsimp only
            have : eN - ov > start := by omega
            exact_mod_cast this
          · rw [hhd]
            dsimp only
            omega
          · have hhe := (hinv hd (List.mem_cons_self hd tl)).2.2.2
            rw [hhe, hhd]
            dsimp only
            have h1' : (eN : Int) ≤ ((eN - ov : Nat) : Int) + (cs : Int) := by
              omega
            have h2' : (eN : Int) ≤ (L : Int) := by exact_mod_cast heL
            omega
        · intro w hw1 hw2
          by_cases hwe : w < eN
          · refine ⟨_, List.mem_cons_self _ _, ?_, ?_⟩
            · dsimp only
              exact_mod_cast hw1
            · dsimp only
              exact_mod_cast hwe
          · obtain ⟨c, hc, hcc⟩ := hcov w (by omega) hw2
            exact ⟨c, List.mem_cons_of_mem _ hc, hcc⟩
      · have heNL : eN = L := by omega
        have hlt : ¬ ((eN : Int) < (L : Int)) := by
          rw [heNL]; omega
        rw [if_neg hlt]
        cases f with
        | zero => omega
        | succ f' =>
            have hinner : chunkLoop words cs ov (f' + 1) (eN : Int) (idx + 1)
                = some [] := by
              rw [chunkLoop, if_neg (by rw [heNL]; omega)]
            rw [hinner]
            refine ⟨_, [], rfl, rfl, ?_, ?_, ?_⟩
            · intro c hc
              rcases List.mem_cons.mp hc with rfl | hc
              · refine ⟨?_, by dsimp only; positivity,
                  by dsimp only; exact_mod_cast hse, by dsimp only; rw [heI]⟩
                dsimp only
                simp only [hlen]
                omega
              · simp at hc
            · simp
            · intro w hw1 hw2
              refine ⟨_, List.mem_cons_self _ _, by dsimp only; exact_mod_cast hw1, ?_⟩
              dsimp only
              have : w < eN := by omega
              exact_mod_cast this

/-- With `overlap >= chunk_size` and more than `chunk_size` words, the
chunking loop never advances past 0 (the next start is `end - overlap <=
start`), so no amount of fuel makes it terminate. -/
lemma chunkLoop_nonterminating (words : List String) (cs ov : Nat)
    (hov : cs ≤ ov) (hlen : cs < words.length) :
    ∀ (fuel : Nat) (start : Int) (idx : Nat), start ≤ 0 →
      chunkLoop words cs ov fuel start idx = none := by
  intro fuel
  induction fuel with
  | zero => intro start idx _; rfl
  | succ fuel ih =>
      intro start idx hstart
      have hlenI : (cs : Int) < (words.length : Int) := by exact_mod_cast hlen
      have hpos : start < (words.length : Int) := by
        calc start ≤ 0 := hstart
          _ ≤ (cs : Int) := by positivity
          _ < _ := hlenI
      have hmin : min (start + (cs : Int)) (words.length : Int)
          < (words.length : Int) := by omega
      have hnext : min (start + (cs : Int)) (words.length : Int) - (ov : Int) ≤ 0 := by
        have hcs : (cs : Int) ≤ (ov : Int) := by exact_mod_cast hov
        omega
      simp only [chunkLoop, if_pos hpos, if_pos hmin]
      rw [ih _ (idx + 1) hnext]
      rfl

/-! ## RAG assembly lemmas -/

/-- The joined context labels the chunks "Document Excerpt 1" through
"Document Excerpt k" in retrieval order. -/
lemma ragContextJoin_eq (chunks : List String) :
    ragContextJoin chunks
      = String.intercalate "\n\n" ((List.range chunks.length).map fun i =>
          "[Document Excerpt " ++ toString (i + 1) ++ "]\n" ++ chunks.getD i "") := by
  unfold ragContextJoin
  congr 1
  apply List.ext_getElem
  · simp
  · intro i h1 h2
    simp only [List.getElem_map, List.getElem_enum, List.getElem_range]
    rw [List.getD_eq_getElem chunks "" (by simpa using h1)]

end CaseStudy

/-- C1: evaluation of the sliding-window phase at a keep-count of zero.
With `max_history = 2` and history `[system a, system b, user c]` the
keep-count `max_history - count(system) = 0` demands zero non-system
messages, but Python `other[-0:]` is `other[0:]`, so the window keeps the
whole list: one non-system message survives and the output exceeds the cap
even beyond its system messages. -/
theorem C1_sliding_window_zero_keep_evaluation :
    CaseStudy.slidingWindow 2
        [(⟨"system", "a"⟩ : CaseStudy.Message), ⟨"system", "b"⟩, ⟨"user", "c"⟩]
      = [⟨"system", "a"⟩, ⟨"system", "b"⟩, ⟨"user", "c"⟩]
    ∧ ((CaseStudy.slidingWindow 2
          [(⟨"system", "a"⟩ : CaseStudy.Message), ⟨"system", "b"⟩, ⟨"user", "c"⟩]).filter
            (fun m => !(m.role == "system"))).length = 1
    ∧ (CaseStudy.slidingWindow 2
          [(⟨"system", "a"⟩ : CaseStudy.Message), ⟨"system", "b"⟩, ⟨"user", "c"⟩]).length
        > 2 := by
  decide

/-- C2 counterexample: with `max_tokens = 1` and no system messages the
claim demands the output token count not exceed `max_tokens` (no retained
system message exists to trigger the claimed exception), but the code
returns the empty list, whose token count is the fixed conversation
overhead 2 > 1.  The length-based encoding stands in for the fixed
tokenizer; the empty output's count is 2 under every encoding. -/
theorem C2_counterexample_empty_output_exceeds_budget :
    CaseStudy.manage_context String.length 12 1
        [(⟨"user", "hi"⟩ : CaseStudy.Message)] = []
    ∧ CaseStudy.count_message_tokens String.length
        (CaseStudy.manage_context String.length 12 1
          [(⟨"user", "hi"⟩ : CaseStudy.Message)]) = 2
    ∧ 1 < CaseStudy.count_message_tokens String.length
        (CaseStudy.manage_context String.length 12 1
          [(⟨"user", "hi"⟩ : CaseStudy.Message)]) := by
  decide

/-- C2 (amended): for every encoding, history and budget, the context
manager's output token count does not exceed `max_tokens`, except that
(i) a single retained system message may alone exceed it, or (ii) the
output may be empty while `max_tokens` is below the bare conversation
overhead 2; and whenever the windowed history exceeds `max_tokens` and the
remaining budget after its system messages is non-positive, the output is
exactly the first system message of the windowed history — empty only if
it has no system message. -/
theorem C2_token_budget (tok : String → Nat) (mh mt : Nat)
    (messages : List CaseStudy.Message) :
    (CaseStudy.count_message_tokens tok (CaseStudy.manage_context tok mh mt messages) ≤ mt
      ∨ (∃ m : CaseStudy.Message,
          CaseStudy.manage_context tok mh mt messages = [m]
          ∧ m.role = "system"
          ∧ mt < CaseStudy.count_message_tokens tok [m])
      ∨ (CaseStudy.manage_context tok mh mt messages = [] ∧ mt < 2))
    ∧ (CaseStudy.count_message_tokens tok (CaseStudy.slidingWindow mh messages) > mt →
        (mt : Int) - (CaseStudy.count_message_tokens tok
            ((CaseStudy.slidingWindow mh messages).filter
              (fun m => m.role == "system")) : Int) ≤ 0 →
        CaseStudy.manage_context tok mh mt messages
          = ((CaseStudy.slidingWindow mh messages).filter
              (fun m => m.role == "system")).take 1) := by
  set w := CaseStudy.slidingWindow mh messages with hwdef
  constructor
  · rw [CaseStudy.manage_context_eq, ← hwdef]
    by_cases hw : CaseStudy.count_message_tokens tok w > mt
    · rw [if_pos hw]
      by_cases hrem : 0 < (mt : Int) - (CaseStudy.count_message_tokens tok
          (w.filter (fun m => m.role == "system")) : Int)
      · have hne : w ≠ [] := by
          intro h
          rw [h] at hw hrem
          simp only [List.filter_nil, CaseStudy.count_message_tokens_nil] at hw hrem
          omega
        left
        exact_mod_cast CaseStudy.truncate_messages_le tok w (mt : Int) hne hrem
      · push_neg at hrem
        rw [CaseStudy.truncate_messages_of_nonpos tok w (mt : Int) hrem]
        cases hsys : w.filter (fun m => m.role == "system") with
        | nil =>
            have hmt : (mt : Int) ≤ 2 := by
              rw [hsys] at hrem
              simpa [CaseStudy.count_message_tokens_nil] using hrem
            by_cases h2 : mt < 2
            · exact Or.inr (Or.inr ⟨rfl, h2⟩)
            · left
              simp only [List.take_nil, CaseStudy.count_message_tokens_nil]
              omega
        | cons s tail =>
            have hs : s.role = "system" := by
              have hmem : s ∈ w.filter (fun m => m.role == "system") := by
                rw [hsys]; exact List.mem_cons_self s tail
              simpa using (List.mem_filter.mp hmem).2
            by_cases hfit : CaseStudy.count_message_tokens tok [s] ≤ mt
            · left
              simpa [List.take] using hfit
            · exact Or.inr (Or.inl ⟨s, by simp [List.take], hs, by omega⟩)
    · rw [if_neg hw]
      left
      omega
  · intro hw hrem
    rw [CaseStudy.manage_context_eq, ← hwdef, if_pos hw,
      CaseStudy.truncate_messages_of_nonpos tok w (mt : Int) hrem]

/-- Witness for C2 at a concrete input: the windowed history exceeds the
budget, the remaining budget after its system message is non-positive, and
the output is exactly that first system message. -/
theorem C2_token_budget_witness :
    CaseStudy.manage_context String.length 12 5
        [(⟨"system", "abc"⟩ : CaseStudy.Message), ⟨"user", "hi"⟩]
      = [⟨"system", "abc"⟩] := by
  have h := (C2_token_budget String.length 12 5
      [(⟨"system", "abc"⟩ : CaseStudy.Message), ⟨"user", "hi"⟩]).2
    (by decide) (by decide)
  exact h.trans (by decide)

/-- C3: contrary to the claim, nothing rejects `overlap >= chunk_size` —
neither `Settings` (src/app/config.py declares no validator relating
`chunk_overlap` to `chunk_size`) nor `chunk_text`: on any text with more
than `chunk_size` words the loop is non-advancing, i.e. for every fuel
budget the embedded loop is still running (`none`), and in particular
`chunk_text "a b c"` with `chunk_size = overlap = 2` never produces
chunks. -/
theorem C3_no_fail_fast_loop_never_terminates :
    (∀ (words : List String) (cs ov fuel : Nat) (start : Int) (idx : Nat),
        cs ≤ ov → cs < words.length → start ≤ 0 →
        CaseStudy.chunkLoop words cs ov fuel start idx = none)
    ∧ CaseStudy.chunk_text "a b c" 2 2 = none := by
  constructor
  · intro words cs ov fuel start idx hov hlen hstart
    exact CaseStudy.chunkLoop_nonterminating words cs ov hov hlen fuel start idx hstart
  · decide

/-- Witness for C3 on the concrete failing configuration: chunk_size = 2,
overlap = 2, three words, any fuel shown at 5. -/
theorem C3_no_fail_fast_loop_never_terminates_witness :
    CaseStudy.chunkLoop ["a", "b", "c"] 2 2 5 0 0 = none :=
  C3_no_fail_fast_loop_never_terminates.1 ["a", "b", "c"] 2 2 5 0 0
    (by decide) (by decide) (by decide)

/-- C4: in grounded mode with k >= 1 retrieved chunks, exactly the two
synthetic system messages (fixed instruction, then the context message
labelling the k chunk texts "Document Excerpt 1" … "Document Excerpt k" in
retrieval order) are prepended ahead of the history, and the observed
chunks-used count is k; with zero retrieved chunks nothing synthetic is
added (plain history plus the user message) and the observed count is 0. -/
theorem C4_grounded_dispatch (user : String) (history : List CaseStudy.Message)
    (chunks : List String) :
    (chunks ≠ [] →
      CaseStudy.generateDispatch .grounded_rag chunks history user
          = (CaseStudy.ragSystemMessage :: CaseStudy.contextMessage chunks
              :: (history ++ [⟨"user", user⟩]), chunks.length)
        ∧ CaseStudy.ragSystemMessage.role = "system"
        ∧ (CaseStudy.contextMessage chunks).role = "system"
        ∧ (CaseStudy.contextMessage chunks).content
            = "Relevant document context:\n\n"
              ++ String.intercalate "\n\n" ((List.range chunks.length).map fun i =>
                  "[Document Excerpt " ++ toString (i + 1) ++ "]\n" ++ chunks.getD i ""))
    ∧ CaseStudy.generateDispatch .grounded_rag [] history user
        = (history ++ [⟨"user", user⟩], 0) := by
  constructor
  · intro hne
    refine ⟨?_, rfl, rfl, ?_⟩
    · simp [CaseStudy.generateDispatch, hne, CaseStudy.rag_messages]
    · simp [CaseStudy.contextMessage, CaseStudy.ragContextJoin_eq]
  · rfl

/-- Witness for C4 with two concrete chunks. -/
theorem C4_grounded_dispatch_witness :
    CaseStudy.generateDispatch .grounded_rag ["alpha", "beta"] [] "q"
      = (CaseStudy.ragSystemMessage :: CaseStudy.contextMessage ["alpha", "beta"]
          :: [⟨"user", "q"⟩], 2) := by
  have h := (C4_grounded_dispatch "q" [] ["alpha", "beta"]).1 (by decide)
  simpa using h.1

/-- C5: retrieval returns at most `top_k` texts, each the text of some
chunk of some document in the pool, in non-increasing order of relevance
score; the underlying sort is the unique stable descending sort (pairwise
strictly lower score or equal score with strictly larger encounter
position, over a permutation of the position-tagged pool), hence
deterministic given the input order; and an empty document pool yields the
empty result rather than an error. -/
theorem C5_retrieval_properties (docs : List CaseStudy.DocRecord)
    (query : String) (top_k : Nat) :
    (CaseStudy.retrieve_core docs query top_k).length ≤ top_k
    ∧ (∀ t ∈ CaseStudy.retrieve_core docs query top_k,
        ∃ d ∈ docs, ∃ c ∈ d.chunks, c.text = t)
    ∧ (CaseStudy.retrieve_core docs query top_k).Chain'
        (fun t1 t2 => CaseStudy.calculate_relevance_score query t2
          ≤ CaseStudy.calculate_relevance_score query t1)
    ∧ (CaseStudy.pyStableSortDesc (CaseStudy.scoredPool docs query)).Pairwise
        (fun a b => b.2.score < a.2.score ∨ (a.2.score = b.2.score ∧ a.1 < b.1))
    ∧ List.Perm (CaseStudy.pyStableSortDesc (CaseStudy.scoredPool docs query))
        (CaseStudy.scoredPool docs query).enum
    ∧ (docs = [] → CaseStudy.retrieve_core docs query top_k = []) := by
  by_cases hd : docs = []
  · subst hd
    refine ⟨?_, ?_, ?_, ?_, ?_, fun _ => rfl⟩
    · simp [CaseStudy.retrieve_core]
    · intro t ht
      simp [CaseStudy.retrieve_core] at ht
    · simp [CaseStudy.retrieve_core]
    · exact CaseStudy.pyStableSortDesc_pairwise _
    · exact CaseStudy.pyStableSortDesc_perm _
  · have hcore : CaseStudy.retrieve_core docs query top_k
        = (((CaseStudy.pyStableSortDesc (CaseStudy.scoredPool docs query)).map
            Prod.snd).take top_k).map (fun sc => sc.text) := by
      unfold CaseStudy.retrieve_core
      rw [if_neg hd]
    refine ⟨?_, ?_, ?_, CaseStudy.pyStableSortDesc_pairwise _,
      CaseStudy.pyStableSortDesc_perm _, fun h => absurd h hd⟩
    · rw [hcore]
      simp only [List.length_map, List.length_take]
      exact min_le_left _ _
    · intro t ht
      rw [hcore] at ht
      obtain ⟨sc, hsc, rfl⟩ := List.mem_map.mp ht
      exact CaseStudy.scoredPool_mem docs query sc
        (CaseStudy.retrieve_take_mem docs query top_k sc hsc)
    · rw [hcore]
      apply List.Pairwise.chain'
      rw [List.pairwise_map]
      have hpw : ((CaseStudy.pyStableSortDesc (CaseStudy.scoredPool docs query)).map
          Prod.snd).Pairwise (fun s1 s2 => s2.score ≤ s1.score) := by
        rw [List.pairwise_map]
        apply (CaseStudy.pyStableSortDesc_pairwise _).imp
        rintro a b (h | ⟨h, _⟩)
        · exact le_of_lt h
        · exact le_of_eq h.symm
      have htake := hpw.sublist (List.take_sublist top_k _)
      apply htake.imp_of_mem
      intro s1 s2 h1 h2 hle
      rw [CaseStudy.scoredPool_score docs query s1
          (CaseStudy.retrieve_take_mem docs query top_k s1 h1),
        CaseStudy.scoredPool_score docs query s2
          (CaseStudy.retrieve_take_mem docs query top_k s2 h2)] at hle
      exact hle

/-- Witness for C5 on a one-document, one-chunk pool: the returned text is
traced back to its chunk, and the empty pool returns the empty list. -/
theorem C5_retrieval_properties_witness :
    (∃ d ∈ [(⟨"f.txt", [⟨"chunk_0", "hello world", 0, 2, 2⟩]⟩ : CaseStudy.DocRecord)],
      ∃ c ∈ d.chunks, c.text = "hello world")
    ∧ CaseStudy.retrieve_core [] "hello" 3 = [] := by
  constructor
  · exact (C5_retrieval_properties
        [⟨"f.txt", [⟨"chunk_0", "hello world", 0, 2, 2⟩]⟩] "hello" 3).2.1
      "hello world" (by decide)
  · exact (C5_retrieval_properties [] "hello" 3).2.2.2.2.2 rfl

/-- C10: `retrieve_relevant_chunks` never surfaces a failure: a store or
ObjectId error caught by its `except` clause yields `[]`, which is the very
value an empty document list yields, so the caller cannot distinguish
retrieval failure from "no chunks found" and grounded requests degrade to
ungrounded generation. -/
theorem C10_retrieval_swallows_failures (e query : String) (top_k : Nat) :
    CaseStudy.retrieve_relevant_chunks (.err e) query top_k = []
    ∧ CaseStudy.retrieve_relevant_chunks (.ok []) query top_k = []
    ∧ CaseStudy.retrieve_relevant_chunks (.err e) query top_k
        = CaseStudy.retrieve_relevant_chunks (.ok []) query top_k := by
  refine ⟨rfl, ?_, ?_⟩ <;> simp [CaseStudy.retrieve_relevant_chunks, CaseStudy.retrieve_core]

/-- C8: for `chunk_size > overlap >= 0` and a text with more than
`chunk_size` words, chunking terminates and the emitted chunks satisfy
`end_word - start_word = word_count`, appear in strictly increasing
`start_word` order, every consecutive pair overlaps by exactly `overlap`
words (the next start is exactly `end - overlap` and ranges are nested
upward — even the final pair, which the claim only requires "except
possibly"), and their word ranges cover every word with no gaps. -/
theorem C8_chunk_invariants (text : String) (cs ov : Nat)
    (hov : ov < cs) (hlen : cs < (CaseStudy.pySplitWs text).length) :
    ∃ chunks : List CaseStudy.Chunk,
      CaseStudy.chunk_text text cs ov = some chunks
      ∧ chunks ≠ []
      ∧ (∀ c ∈ chunks, c.end_word - c.start_word = (c.word_count : Int))
      ∧ chunks.Chain' (fun a b => a.start_word < b.start_word)
      ∧ chunks.Chain' (fun a b =>
          b.start_word = a.end_word - (ov : Int) ∧ a.end_word ≤ b.end_word)
      ∧ (∀ w : Nat, w < (CaseStudy.pySplitWs text).length →
          ∃ c ∈ chunks, c.start_word ≤ (w : Int) ∧ (w : Int) < c.end_word) := by
  obtain ⟨hd, tl, heq, hhd, hinv, hchain, hcov⟩ :=
    CaseStudy.chunkLoop_spec (CaseStudy.pySplitWs text) cs ov hov
      ((CaseStudy.pySplitWs text).length + 1) 0 0 (by omega) (by omega)
  refine ⟨hd :: tl, ?_, by simp, fun c hc => (hinv c hc).1, ?_, ?_,
    fun w hw => hcov w (by omega) hw⟩
  · unfold CaseStudy.chunk_text
    rw [if_neg (by omega)]
    simpa using heq
  · exact hchain.imp (fun a b h => h.1)
  · exact hchain.imp (fun a b h => ⟨h.2.1, h.2.2⟩)

/-- Witness for C8: chunk_size 2, overlap 1, five words. -/
theorem C8_chunk_invariants_witness :
    ∃ chunks : List CaseStudy.Chunk,
      CaseStudy.chunk_text "a b c d e" 2 1 = some chunks
      ∧ chunks ≠ []
      ∧ (∀ c ∈ chunks, c.end_word - c.start_word = (c.word_count : Int))
      ∧ chunks.Chain' (fun a b => a.start_word < b.start_word)
      ∧ chunks.Chain' (fun a b =>
          b.start_word = a.end_word - (1 : Int) ∧ a.end_word ≤ b.end_word)
      ∧ (∀ w : Nat, w < (CaseStudy.pySplitWs "a b c d e").length →
          ∃ c ∈ chunks, c.start_word ≤ (w : Int) ∧ (w : Int) < c.end_word) := by
  have h := C8_chunk_invariants "a b c d e" 2 1 (by decide) (by decide)
  simpa using h

/-- C9: `count_message_tokens` returns 2 plus, for each message, 4 plus the
token count of its role plus the token count of its content (for every
encoding `tok`); in particular it returns exactly 2 on the empty list. -/
theorem C9_count_message_tokens_additive (tok : String → Nat)
    (messages : List CaseStudy.Message) :
    CaseStudy.count_message_tokens tok messages
        = 2 + (messages.map (fun m => 4 + tok m.role + tok m.content)).sum
      ∧ CaseStudy.count_message_tokens tok [] = 2 := by
  constructor
  · rw [CaseStudy.count_message_tokens_eq, Nat.add_comm]
    rfl
  · rfl

/-- C6: the relevance score is the Jaccard similarity of the two normalized
word sets (lowercase, strip non-word/non-space characters, split on
whitespace, collapse duplicates): it lies in [0, 1], is 0 whenever either
word set is empty, equals |intersection| / |union| on non-empty word sets,
and the spec scenario "refund policy" vs "Our refund policy allows returns
within 30 days" scores exactly 0.25. -/
theorem C6_relevance_score_is_jaccard (q c : String) :
    (0 ≤ CaseStudy.calculate_relevance_score q c
      ∧ CaseStudy.calculate_relevance_score q c ≤ 1)
    ∧ (CaseStudy.normalizeWords q = ∅ ∨ CaseStudy.normalizeWords c = ∅ →
        CaseStudy.calculate_relevance_score q c = 0)
    ∧ (CaseStudy.normalizeWords q ≠ ∅ → CaseStudy.normalizeWords c ≠ ∅ →
        CaseStudy.calculate_relevance_score q c
          = ((CaseStudy.normalizeWords q ∩ CaseStudy.normalizeWords c).card : ℚ)
              / ((CaseStudy.normalizeWords q ∪ CaseStudy.normalizeWords c).card : ℚ))
    ∧ CaseStudy.calculate_relevance_score "refund policy"
        "Our refund policy allows returns within 30 days" = 1 / 4 := by
  refine ⟨⟨CaseStudy.calculate_relevance_score_nonneg q c,
      CaseStudy.calculate_relevance_score_le_one q c⟩, ?_, ?_,
      CaseStudy.calculate_relevance_score_example⟩
  · intro h
    apply CaseStudy.calculate_relevance_score_zero
    rcases h with h | h
    · exact Or.inl ((CaseStudy.wordList_eq_nil_iff q).mpr h)
    · exact Or.inr ((CaseStudy.wordList_eq_nil_iff c).mpr h)
  · intro hq hc
    exact CaseStudy.calculate_relevance_score_eq q c
      (fun he => hq ((CaseStudy.wordList_eq_nil_iff q).mp he))
      (fun he => hc ((CaseStudy.wordList_eq_nil_iff c).mp he))

/-- Witness for C6 at concrete inputs: both hypotheses of the conditional
conjuncts are discharged on "refund policy" versus the spec's chunk text,
and emptiness on a punctuation-only chunk. -/
theorem C6_relevance_score_is_jaccard_witness :
    CaseStudy.calculate_relevance_score "refund policy"
        "Our refund policy allows returns within 30 days"
      = ((CaseStudy.normalizeWords "refund policy"
            ∩ CaseStudy.normalizeWords "Our refund policy allows returns within 30 days").card : ℚ)
          / ((CaseStudy.normalizeWords "refund policy"
            ∪ CaseStudy.normalizeWords "Our refund policy allows returns within 30 days").card : ℚ)
    ∧ CaseStudy.calculate_relevance_score "refund policy" "!!!" = 0 := by
  constructor
  · exact (C6_relevance_score_is_jaccard "refund policy"
        "Our refund policy allows returns within 30 days").2.2.1
      (fun h => absurd (congrArg Finset.card h) (by decide))
      (fun h => absurd (congrArg Finset.card h) (by decide))
  · exact (C6_relevance_score_is_jaccard "refund policy" "!!!").2.1
      (Or.inr (by decide))

/-- C7 counterexample: the claim asserts `score(q, q) = 1.0` for every
non-empty string `q`, but the non-empty string "!" normalizes to an empty
word set, so the code scores `score("!", "!") = 0.0`. -/
theorem C7_counterexample_self_score :
    ("!" : String) ≠ ""
    ∧ CaseStudy.calculate_relevance_score "!" "!" = 0
    ∧ CaseStudy.calculate_relevance_score "!" "!" ≠ 1 := by
  refine ⟨by decide, ?_, ?_⟩
  · exact CaseStudy.calculate_relevance_score_zero _ _ (Or.inl (by decide))
  · rw [CaseStudy.calculate_relevance_score_zero _ _ (Or.inl (by decide))]
    norm_num

/-- C7 (amended): `score(q, c) = score(c, q)` for all strings; `score(q, q)
= 1.0` for every string whose normalized word set is non-empty (rather than
every non-empty string); `score(q, "") = 0.0` for all strings. -/
theorem C7_score_algebra (q c : String) :
    CaseStudy.calculate_relevance_score q c = CaseStudy.calculate_relevance_score c q
    ∧ (CaseStudy.normalizeWords q ≠ ∅ → CaseStudy.calculate_relevance_score q q = 1)
    ∧ CaseStudy.calculate_relevance_score q "" = 0 := by
  refine ⟨CaseStudy.calculate_relevance_score_comm q c, ?_,
    CaseStudy.calculate_relevance_score_empty_right q⟩
  intro h
  exact CaseStudy.calculate_relevance_score_self q
    (fun he => h ((CaseStudy.wordList_eq_nil_iff q).mp he))

/-- Witness for C7 at a concrete input with a non-empty word set. -/
theorem C7_score_algebra_witness :
    CaseStudy.calculate_relevance_score "refund policy" "refund policy" = 1 :=
  (C7_score_algebra "refund policy" "x").2.1
    (fun h => absurd (congrArg Finset.card h) (by decide))
